import Mathlib

/-!
Shallow embedding of the seo-drafter-gcp UI core: the quality phrase
detector of the rewrite page, the API url builder and fetch wrapper,
the LLM preset tables, the list parsing of the brief form and heading
directive, and spec-modelled fragments of the draft generation
pipeline (outline pass-through, section fan-out reassembly, stage
write-once bookkeeping), together with theorems settling the frozen
claims about them.
-/

namespace SeoDrafter

/-! ### Quality phrase detection (rewrite page) -/

/-- Embeds `CLIENT_NG_PHRASES` from the rewrite page: the configured
excessive/NG phrase list. -/
def CLIENT_NG_PHRASES : List String :=
  ["計り知れ", "魔法のよう", "姿が見えるでしょうか", "比類ない", "驚異的", "劇的に改善"]

/-- Embeds `CLIENT_ABSTRACT_PATTERNS` from the rewrite page: the
configured abstract-claim phrase list. -/
def CLIENT_ABSTRACT_PATTERNS : List String :=
  ["設定した条件", "自動で料金を調整", "競争力を維持", "最適化されていきます", "すべてを改善", "高い効果が期待できます"]

/-- The detection report returned by `detectPhrases`. -/
structure DetectionSummary where
  ng : List String
  abstract : List String
deriving DecidableEq, Repr

/-- JS `text.includes(phrase)`: literal (case-sensitive) substring
containment over the full text. -/
def includesStr (text phrase : String) : Bool :=
  decide (phrase.data <:+: text.data)

/-- Embeds `detectPhrases` with the phrase lists made explicit
parameters; the body of `hits` mirrors
`phrases.filter((phrase) => phrase && text.includes(phrase))`. -/
def detectPhrasesWith (ngList absList : List String) (text : String) : DetectionSummary :=
  let hits := fun (phrases : List String) =>
    phrases.filter (fun phrase => phrase != "" && includesStr text phrase)
  { ng := hits ngList, abstract := hits absList }

/-- Embeds `detectPhrases` from the rewrite page, scanning against the two
configured phrase lists. -/
def detectPhrases (text : String) : DetectionSummary :=
  detectPhrasesWith CLIENT_NG_PHRASES CLIENT_ABSTRACT_PATTERNS text

theorem detectPhrasesWith_mem (phrases : List String) (t p : String)
    (hne : ∀ q ∈ phrases, q ≠ "") :
    p ∈ (detectPhrasesWith phrases [] t).ng ↔ p ∈ phrases ∧ p.data <:+: t.data := by
  simp only [detectPhrasesWith, List.mem_filter, Bool.and_eq_true, bne_iff_ne, ne_eq,
    includesStr, decide_eq_true_eq]
  constructor
  · rintro ⟨hmem, -, hinf⟩
    exact ⟨hmem, hinf⟩
  · rintro ⟨hmem, hinf⟩
    exact ⟨hmem, hne p hmem, hinf⟩

/-- C1: phrase detection is literal case-sensitive substring containment
over the full text against the two configured lists, and every
configured phrase is recorded at most once per report. -/
theorem c1_phrase_detection_characterization (t p : String) :
    (p ∈ (detectPhrases t).ng ↔ p ∈ CLIENT_NG_PHRASES ∧ p.data <:+: t.data) ∧
    (p ∈ (detectPhrases t).abstract ↔ p ∈ CLIENT_ABSTRACT_PATTERNS ∧ p.data <:+: t.data) ∧
    (detectPhrases t).ng.count p ≤ 1 ∧ (detectPhrases t).abstract.count p ≤ 1 := by
  have hngne : ∀ q ∈ CLIENT_NG_PHRASES, q ≠ "" := by decide
  have habsne : ∀ q ∈ CLIENT_ABSTRACT_PATTERNS, q ≠ "" := by decide
  have hngnd : CLIENT_NG_PHRASES.Nodup := by decide
  have habsnd : CLIENT_ABSTRACT_PATTERNS.Nodup := by decide
  refine ⟨?_, ?_, ?_, ?_⟩
  · simpa [detectPhrases, detectPhrasesWith] using
      detectPhrasesWith_mem CLIENT_NG_PHRASES t p hngne
  · simpa [detectPhrases, detectPhrasesWith] using
      detectPhrasesWith_mem CLIENT_ABSTRACT_PATTERNS t p habsne
  · rw [show (detectPhrases t).ng =
        CLIENT_NG_PHRASES.filter (fun phrase => phrase != "" && includesStr t phrase) from rfl]
    exact List.nodup_iff_count_le_one.mp (hngnd.filter _) p
  · rw [show (detectPhrases t).abstract =
        CLIENT_ABSTRACT_PATTERNS.filter (fun phrase => phrase != "" && includesStr t phrase) from rfl]
    exact List.nodup_iff_count_le_one.mp (habsnd.filter _) p

/-- C2: the phrase detector is a pure function — two invocations on
identical (text, phrase-list) inputs return identical reports, element
for element and in order. -/
theorem c2_detection_deterministic (ng₁ ng₂ abs₁ abs₂ : List String) (t₁ t₂ : String)
    (hng : ng₁ = ng₂) (habs : abs₁ = abs₂) (ht : t₁ = t₂) :
    (detectPhrasesWith ng₁ abs₁ t₁).ng = (detectPhrasesWith ng₂ abs₂ t₂).ng ∧
    (detectPhrasesWith ng₁ abs₁ t₁).abstract = (detectPhrasesWith ng₂ abs₂ t₂).abstract := by
  subst hng habs ht
  exact ⟨rfl, rfl⟩

/-- Witness for C2 at a concrete invocation pair. -/
theorem c2_detection_deterministic_witness :
    (detectPhrasesWith CLIENT_NG_PHRASES CLIENT_ABSTRACT_PATTERNS "驚異的な効果").ng =
      (detectPhrasesWith CLIENT_NG_PHRASES CLIENT_ABSTRACT_PATTERNS "驚異的な効果").ng ∧
    (detectPhrasesWith CLIENT_NG_PHRASES CLIENT_ABSTRACT_PATTERNS "驚異的な効果").abstract =
      (detectPhrasesWith CLIENT_NG_PHRASES CLIENT_ABSTRACT_PATTERNS "驚異的な効果").abstract :=
  c2_detection_deterministic CLIENT_NG_PHRASES CLIENT_NG_PHRASES
    CLIENT_ABSTRACT_PATTERNS CLIENT_ABSTRACT_PATTERNS "驚異的な効果" "驚異的な効果" rfl rfl rfl

/-! ### API url construction and fetch wrapper (ui/lib/api.ts) -/

def DEFAULT_API_BASE_URL : String := "https://seo-drafter-api-yxk2eqrkvq-an.a.run.app"

/-- The whitespace class of JS `String.prototype.trim` (ASCII part). -/
def jsWs (c : Char) : Bool :=
  c = ' ' || c = '\t' || c = '\n' || c = '\r' || c = '\x0b' || c = '\x0c'

/-- JS `s.trim()`: strip `jsWs` characters from both ends. -/
def trimChars (l : List Char) : List Char :=
  ((l.dropWhile jsWs).reverse.dropWhile jsWs).reverse

def jsTrim (s : String) : String :=
  String.mk (trimChars s.data)

/-- Embeds `getApiBaseUrl`: the trimmed `NEXT_PUBLIC_API_BASE_URL` when truthy
(non-empty), else `options.fallback ?? DEFAULT_API_BASE_URL`. The
environment variable is passed explicitly as `env`. -/
def getApiBaseUrl (env fallback : Option String) : String :=
  let envValue := env.map jsTrim
  match envValue with
  | some v => if v ≠ "" then v else fallback.getD DEFAULT_API_BASE_URL
  | none => fallback.getD DEFAULT_API_BASE_URL

def isSlash (c : Char) : Bool := c = '/'

/-- Embeds the regex replace that deletes the trailing run of slashes
from the base url. -/
def stripTrailSlashes (l : List Char) : List Char :=
  (l.reverse.dropWhile isSlash).reverse

/-- Embeds the regex replace that deletes the leading run of slashes
from the path. -/
def stripLeadSlashes (l : List Char) : List Char :=
  l.dropWhile isSlash

/-- Embeds `buildApiUrl`: join the normalized base and the normalized path with
a single `/`. -/
def buildApiUrl (env fallback : Option String) (path : String) : String :=
  let baseUrl := getApiBaseUrl env fallback
  let normalizedBase := String.mk (stripTrailSlashes baseUrl.data)
  let normalizedPath := String.mk (stripLeadSlashes path.data)
  normalizedBase ++ "/" ++ normalizedPath

theorem head?_dropWhile_false {α : Type} (p : α → Bool) (l : List α) (c : α)
    (h : (l.dropWhile p).head? = some c) : p c = false := by
  have hne : l.dropWhile p ≠ [] := by
    intro h0
    rw [h0] at h
    exact Option.noConfusion h
  have hd := List.head_dropWhile_not p l hne
  have hc : (l.dropWhile p).head hne = c := by
    have he := List.head?_eq_head hne
    rw [he] at h
    exact (Option.some.injEq _ _).mp h
  rwa [hc] at hd

theorem takeWhile_isSlash_replicate (l : List Char) :
    l.takeWhile isSlash = List.replicate (l.takeWhile isSlash).length '/' := by
  refine List.eq_replicate_of_mem ?_
  intro b hb
  have := List.mem_takeWhile_imp hb
  simpa [isSlash] using this

theorem stripLead_decomp (l : List Char) :
    l = List.replicate (l.takeWhile isSlash).length '/' ++ stripLeadSlashes l := by
  conv_lhs => rw [← List.takeWhile_append_dropWhile isSlash l]
  rw [← takeWhile_isSlash_replicate]
  rfl

theorem stripTrail_decomp (l : List Char) :
    l = stripTrailSlashes l ++ List.replicate (l.reverse.takeWhile isSlash).length '/' := by
  have h2 : l = (List.dropWhile isSlash l.reverse).reverse ++
      (List.takeWhile isSlash l.reverse).reverse := by
    conv_lhs => rw [← List.reverse_reverse l, ← List.takeWhile_append_dropWhile isSlash l.reverse]
    rw [List.reverse_append]
  rw [stripTrailSlashes]
  nth_rewrite 1 [h2]
  congr 1
  rw [takeWhile_isSlash_replicate l.reverse]
  simp

theorem stripLead_head_ne_slash (l : List Char) (c : Char)
    (h : (stripLeadSlashes l).head? = some c) : c ≠ '/' := by
  have := head?_dropWhile_false isSlash l c h
  simpa [isSlash] using this

theorem stripTrail_getLast_ne_slash (l : List Char) (c : Char)
    (h : (stripTrailSlashes l).getLast? = some c) : c ≠ '/' := by
  rw [stripTrailSlashes, List.getLast?_reverse] at h
  have := head?_dropWhile_false isSlash l.reverse c h
  simpa [isSlash] using this

/-- C8: `buildApiUrl` returns `B ++ "/" ++ P` where `B` is the resolved
base with the whole trailing run of `/` removed and `P` is the path with
the whole leading run of `/` removed, so the junction carries exactly one
slash; the resolved base is the trimmed env value when non-empty, else
the fallback, else the built-in default. -/
theorem c8_buildApiUrl_characterization (env fallback : Option String) (path : String) :
    ((buildApiUrl env fallback path).data =
        stripTrailSlashes (getApiBaseUrl env fallback).data ++
          '/' :: stripLeadSlashes path.data) ∧
    (∃ k, (getApiBaseUrl env fallback).data =
        stripTrailSlashes (getApiBaseUrl env fallback).data ++ List.replicate k '/') ∧
    (∀ c, (stripTrailSlashes (getApiBaseUrl env fallback).data).getLast? = some c → c ≠ '/') ∧
    (∃ j, path.data = List.replicate j '/' ++ stripLeadSlashes path.data) ∧
    (∀ c, (stripLeadSlashes path.data).head? = some c → c ≠ '/') ∧
    (∀ s, env = some s → jsTrim s ≠ "" → getApiBaseUrl env fallback = jsTrim s) ∧
    (∀ s, env = some s → jsTrim s = "" →
        getApiBaseUrl env fallback = fallback.getD DEFAULT_API_BASE_URL) ∧
    (env = none → getApiBaseUrl env fallback = fallback.getD DEFAULT_API_BASE_URL) := by
  refine ⟨?_, ⟨_, stripTrail_decomp _⟩, stripTrail_getLast_ne_slash _,
    ⟨_, stripLead_decomp _⟩, stripLead_head_ne_slash _, ?_, ?_, ?_⟩
  · simp [buildApiUrl, String.data_append]
  · rintro s rfl hne
    simp [getApiBaseUrl, hne]
  · rintro s rfl heq
    simp [getApiBaseUrl, heq]
  · rintro rfl
    simp [getApiBaseUrl]

/-- Witness for C8 at a concrete environment, fallback and path. -/
theorem c8_buildApiUrl_witness :
    (buildApiUrl (some " https://api.example.com// ") none "//api/jobs").data =
        stripTrailSlashes (getApiBaseUrl (some " https://api.example.com// ") none).data ++
          '/' :: stripLeadSlashes "//api/jobs".data ∧
    getApiBaseUrl (some " https://api.example.com// ") none = "https://api.example.com//" ∧
    getApiBaseUrl (some "   ") (some "http://fb") = "http://fb" ∧
    getApiBaseUrl none none = DEFAULT_API_BASE_URL := by
  refine ⟨(c8_buildApiUrl_characterization (some " https://api.example.com// ") none
      "//api/jobs").1, ?_, ?_, ?_⟩
  · exact ((c8_buildApiUrl_characterization (some " https://api.example.com// ") none
      "//api/jobs").2.2.2.2.2.1 _ rfl (by decide)).trans (by decide)
  · exact ((c8_buildApiUrl_characterization (some "   ") (some "http://fb")
      "x").2.2.2.2.2.2.1 _ rfl (by decide)).trans rfl
  · exact (c8_buildApiUrl_characterization none none "x").2.2.2.2.2.2.2 rfl

/-! ### apiFetch (ui/lib/api.ts) -/

/-- The slice of a `fetch` response that `apiFetch` inspects.
`textResult = none` models a rejected `text()` call (the code catches it
and substitutes the empty string); `jsonResult = none` models a rejected `json()`
call, which happens when the body is not valid JSON (the code does not
catch it). -/
structure HttpResponse where
  ok : Bool
  status : Nat
  contentType : Option String
  textResult : Option String
  jsonResult : Option String
deriving DecidableEq, Repr

inductive FetchValue where
  | undef
  | jsonValue (v : String)
  | textValue (s : String)
deriving DecidableEq, Repr

inductive FetchOutcome where
  | ok (v : FetchValue)
  | error (message : String)
deriving DecidableEq, Repr

/-- Embeds `apiFetch` applied to a resolved response. -/
def apiFetch (r : HttpResponse) : FetchOutcome :=
  if !r.ok then
    let message := r.textResult.getD ""
    .error (if message ≠ "" then message else "Request failed with status " ++ toString r.status)
  else if r.status = 204 then
    .ok .undef
  else
    let contentType := r.contentType.getD ""
    if includesStr contentType "application/json" then
      match r.jsonResult with
      | some v => .ok (.jsonValue v)
      | none => .error "body is not valid JSON"
    else
      .ok (.textValue (r.textResult.getD ""))

def isFetchError : FetchOutcome → Bool
  | .error _ => true
  | .ok _ => false

/-- An ok (HTTP 200) response whose content-type is JSON but whose body
does not parse. -/
def badJsonResponse : HttpResponse :=
  { ok := true, status := 200, contentType := some "application/json",
    textResult := some "not valid json", jsonResult := none }

/-- Counterexample to C4 as stated: this ok response makes `apiFetch`
raise, so raising is not equivalent to a non-ok status. -/
theorem c4_counterexample_ok_response_raises :
    badJsonResponse.ok = true ∧
      apiFetch badJsonResponse = .error "body is not valid JSON" := by
  constructor
  · rfl
  · decide

/-- C4 amended: `apiFetch` raises exactly when the response is not ok or
when it is ok with a non-204 status, a JSON content-type and a body that
fails to parse; every other ok response returns a value — `undef` for
204, the parsed JSON body for a JSON content-type, the raw body text
otherwise. -/
theorem c4_apiFetch_amended (r : HttpResponse) :
    (isFetchError (apiFetch r) = true ↔
      (r.ok = false ∨ (r.status ≠ 204 ∧
        includesStr (r.contentType.getD "") "application/json" = true ∧
        r.jsonResult = none))) ∧
    (r.ok = true → r.status = 204 → apiFetch r = .ok .undef) ∧
    (∀ v, r.ok = true → r.status ≠ 204 →
      includesStr (r.contentType.getD "") "application/json" = true →
      r.jsonResult = some v → apiFetch r = .ok (.jsonValue v)) ∧
    (r.ok = true → r.status ≠ 204 →
      includesStr (r.contentType.getD "") "application/json" = false →
      apiFetch r = .ok (.textValue (r.textResult.getD ""))) := by
  obtain ⟨ok, status, ct, tr, jr⟩ := r
  cases ok
  · simp [apiFetch, isFetchError]
  · by_cases h204 : status = 204
    · subst h204
      simp [apiFetch, isFetchError]
    · by_cases hct : includesStr (ct.getD "") "application/json" = true
      · cases jr with
        | none => simp [apiFetch, isFetchError, h204, hct]
        | some v => simp [apiFetch, isFetchError, h204, hct]
      · simp only [Bool.not_eq_true] at hct
        simp [apiFetch, isFetchError, h204, hct]

/-- An ok 204 response. -/
def okNoContentResponse : HttpResponse :=
  { ok := true, status := 204, contentType := none, textResult := none, jsonResult := none }

/-- An ok JSON response with a well-formed body. -/
def okJsonResponse : HttpResponse :=
  { ok := true, status := 200, contentType := some "application/json; charset=utf-8", textResult := some "json body", jsonResult := some "parsed json value" }

/-- An ok plain-text response. -/
def okTextResponse : HttpResponse :=
  { ok := true, status := 200, contentType := some "text/plain", textResult := some "pong", jsonResult := none }

/-- Witness for the amended C4 at concrete responses. -/
theorem c4_apiFetch_amended_witness :
    apiFetch okNoContentResponse = .ok .undef ∧
    apiFetch okJsonResponse = .ok (.jsonValue "parsed json value") ∧
    apiFetch okTextResponse = .ok (.textValue "pong") := by
  refine ⟨(c4_apiFetch_amended okNoContentResponse).2.1 rfl rfl, ?_, ?_⟩
  · exact (c4_apiFetch_amended okJsonResponse).2.2.1 "parsed json value" rfl (by decide) (by decide) rfl
  · exact (c4_apiFetch_amended okTextResponse).2.2.2 rfl (by decide) (by decide)

/-! ### LLM presets (ui/lib/llm-presets.ts) -/

structure LlmPreset where
  id : String
  provider : String
  model : String
  label : String
deriving DecidableEq, Repr

/-- The current `LLM_PRESETS` table (the GPT-5 era list; the repository
docs mark the GPT-4o models as legacy). -/
def LLM_PRESETS : List LlmPreset :=
  [ { id := "openai:gpt-5", provider := "openai", model := "gpt-5", label := "OpenAI GPT-5" },
    { id := "openai:gpt-5-mini", provider := "openai", model := "gpt-5-mini", label := "OpenAI GPT-5 Mini" },
    { id := "openai:o4-mini", provider := "openai", model := "o4-mini", label := "OpenAI o4-mini" },
    { id := "anthropic:claude-sonnet-4-5", provider := "anthropic", model := "claude-sonnet-4-5", label := "Claude Sonnet 4.5" },
    { id := "anthropic:claude-sonnet-4-5-20250929", provider := "anthropic", model := "claude-sonnet-4-5-20250929", label := "Claude Sonnet 4.5 (2025-09-29 snapshot)" },
    { id := "anthropic:claude-haiku-4-5", provider := "anthropic", model := "claude-haiku-4-5", label := "Claude Haiku 4.5" },
    { id := "anthropic:claude-opus-4-1", provider := "anthropic", model := "claude-opus-4-1", label := "Claude Opus 4.1" } ]

/-- The earlier `LLM_PRESETS` table still present in the tree (GPT-4o /
Claude 3 era). -/
def LLM_PRESETS_LEGACY : List LlmPreset :=
  [ { id := "openai:gpt-4o", provider := "openai", model := "gpt-4o", label := "OpenAI GPT-4o" },
    { id := "openai:gpt-4o-mini", provider := "openai", model := "gpt-4o-mini", label := "OpenAI GPT-4o Mini" },
    { id := "anthropic:claude-3-5-sonnet-20240620", provider := "anthropic", model := "claude-3-5-sonnet-20240620", label := "Claude 3.5 Sonnet (2024-06-20)" },
    { id := "anthropic:claude-3-opus-20240229", provider := "anthropic", model := "claude-3-opus-20240229", label := "Claude 3 Opus" } ]

/-- C9: in both preset tables, every id equals
`provider ++ ":" ++ model`, the provider is `openai` or `anthropic`, the
ids are pairwise distinct, and looking a preset up by id yields a unique
entry. -/
theorem c9_llm_presets_invariant :
    (∀ p ∈ LLM_PRESETS,
      p.id = p.provider ++ ":" ++ p.model ∧ (p.provider = "openai" ∨ p.provider = "anthropic")) ∧
    (LLM_PRESETS.map LlmPreset.id).Nodup ∧
    (∀ p ∈ LLM_PRESETS, ∀ q ∈ LLM_PRESETS, p.id = q.id → p = q) ∧
    (∀ p ∈ LLM_PRESETS_LEGACY,
      p.id = p.provider ++ ":" ++ p.model ∧ (p.provider = "openai" ∨ p.provider = "anthropic")) ∧
    (LLM_PRESETS_LEGACY.map LlmPreset.id).Nodup ∧
    (∀ p ∈ LLM_PRESETS_LEGACY, ∀ q ∈ LLM_PRESETS_LEGACY, p.id = q.id → p = q) := by
  refine ⟨by decide, by decide, ?_, by decide, by decide, ?_⟩ <;> decide

def gpt5Preset : LlmPreset :=
  { id := "openai:gpt-5", provider := "openai", model := "gpt-5", label := "OpenAI GPT-5" }

/-- Witness for C9 at a concrete preset. -/
theorem c9_llm_presets_invariant_witness :
    gpt5Preset.id = gpt5Preset.provider ++ ":" ++ gpt5Preset.model ∧
    (gpt5Preset.provider = "openai" ∨ gpt5Preset.provider = "anthropic") :=
  c9_llm_presets_invariant.1 gpt5Preset (by decide)

/-! ### Rewrite page provider/model state (rewrite form) -/

/-- Embeds the (provider, model) part of the React state of the rewrite
form. -/
structure RewriteFormState where
  provider : String
  model : String
deriving DecidableEq, Repr

/-- Embeds the `useState` initial values: provider `openai`, model `gpt-5`. -/
def initialRewriteFormState : RewriteFormState :=
  { provider := "openai", model := "gpt-5" }

/-- The models offered by the model select:
`LLM_PRESETS.filter((option) => option.provider === provider)`. -/
def availableModels (s : RewriteFormState) : List LlmPreset :=
  LLM_PRESETS.filter (fun option => option.provider == s.provider)

/-- Embeds the change handler of the provider select: set the provider and, when a
preset for it exists, reset the model to the first such preset. -/
def setProviderAction (s : RewriteFormState) (p : String) : RewriteFormState :=
  let s1 : RewriteFormState := { s with provider := p }
  match LLM_PRESETS.find? (fun option => option.provider == p) with
  | some first => { s1 with model := first.model }
  | none => s1

/-- One user interaction with the two selects. The provider select only
offers `openai` and `anthropic`; the model select only offers the models
of `availableModels`. -/
inductive RewriteStep : RewriteFormState → RewriteFormState → Prop
  | setProvider (s : RewriteFormState) (p : String)
      (hp : p = "openai" ∨ p = "anthropic") :
      RewriteStep s (setProviderAction s p)
  | setModel (s : RewriteFormState) (m : String)
      (hm : m ∈ (availableModels s).map LlmPreset.model) :
      RewriteStep s { s with model := m }

/-- The form states reachable from the initial state. -/
inductive RewriteReachable : RewriteFormState → Prop
  | init : RewriteReachable initialRewriteFormState
  | step {s s' : RewriteFormState} :
      RewriteReachable s → RewriteStep s s' → RewriteReachable s'

/-- The `llm` object submitted in the rewrite payload. -/
def submittedLlm (s : RewriteFormState) : String × String :=
  (s.provider, s.model)

/-- C5: every reachable state of the rewrite form — hence every submitted
payload — carries a model that is the model of some configured preset of
the selected provider. -/
theorem c5_rewrite_model_known (s : RewriteFormState) (h : RewriteReachable s) :
    ∃ preset ∈ LLM_PRESETS,
      preset.provider = (submittedLlm s).1 ∧ preset.model = (submittedLlm s).2 := by
  induction h with
  | init =>
    refine ⟨{ id := "openai:gpt-5", provider := "openai", model := "gpt-5", label := "OpenAI GPT-5" }, ?_, rfl, rfl⟩
    decide
  | step _ hstep ih =>
    cases hstep with
    | setProvider p hp =>
      rcases hp with rfl | rfl
      · refine ⟨{ id := "openai:gpt-5", provider := "openai", model := "gpt-5", label := "OpenAI GPT-5" }, by decide, ?_, ?_⟩ <;> rfl
      · refine ⟨{ id := "anthropic:claude-sonnet-4-5", provider := "anthropic", model := "claude-sonnet-4-5", label := "Claude Sonnet 4.5" }, by decide, ?_, ?_⟩ <;> rfl
    | setModel m hm =>
      simp only [availableModels, List.mem_map, List.mem_filter] at hm
      obtain ⟨preset, ⟨hmem, hprov⟩, hmodel⟩ := hm
      refine ⟨preset, hmem, ?_, ?_⟩
      · simpa [submittedLlm] using beq_iff_eq.mp hprov
      · simpa [submittedLlm] using hmodel

/-- Witness for C5 at the initial form state. -/
theorem c5_rewrite_model_known_witness :
    ∃ preset ∈ LLM_PRESETS,
      preset.provider = (submittedLlm initialRewriteFormState).1 ∧
      preset.model = (submittedLlm initialRewriteFormState).2 :=
  c5_rewrite_model_known initialRewriteFormState RewriteReachable.init

/-! ### List parsing helpers (brief form `parseList`, persona form `splitList`) -/

/-- Separator class of the regex `[\r\n]+`. -/
def isNewlineSep (c : Char) : Bool := c = '\r' || c = '\n'

/-- Separator class of the regex `[\r\n,、，]+`. -/
def isFlexSep (c : Char) : Bool :=
  c = '\r' || c = '\n' || c = ',' || c = '、' || c = '，'

inductive ParseMode where
  | flex
  | newline
deriving DecidableEq, Repr

def sepFor : ParseMode → Char → Bool
  | .flex => isFlexSep
  | .newline => isNewlineSep

/-- JS `String.prototype.split` on the regex `[sep]+`: the pieces between
maximal runs of separator characters (with empty pieces at either end
when the string starts or ends with a separator, and a singleton empty
piece on the empty string). -/
def splitOnRuns (sep : Char → Bool) : List Char → List (List Char)
  | [] => [[]]
  | c :: cs =>
    let rest := splitOnRuns sep cs
    if sep c then
      match cs with
      | [] => [] :: rest
      | d :: _ => if sep d then rest else [] :: rest
    else
      match rest with
      | [] => [[c]]
      | r :: rs => (c :: r) :: rs

/-- The common `split(...).map(trim).filter(Boolean)` pipeline. -/
def cleanChunks (sep : Char → Bool) (l : List Char) : List String :=
  ((((splitOnRuns sep l).map trimChars).filter (fun item => item != []))).map String.mk

/-- Embeds `parseList` from the brief form: null and the empty string
give `[]`; otherwise split on the separator runs of the mode, trim each
piece, and keep the truthy
(non-empty) ones. -/
def parseList (value : Option String) (mode : ParseMode) : List String :=
  match value with
  | none => []
  | some text =>
    if text = "" then []
    else cleanChunks (sepFor mode) text.data

/-- Embeds `splitList` from the persona template form:
the split / trim / filter(Boolean) pipeline over newline runs. -/
def splitList (value : String) : List String :=
  cleanChunks isNewlineSep value.data

theorem getLast?_dropWhile_of_ne_nil {α : Type} (p : α → Bool) (l : List α)
    (h : l.dropWhile p ≠ []) : (l.dropWhile p).getLast? = l.getLast? := by
  obtain ⟨t, ht⟩ := List.dropWhile_suffix (l := l) p
  conv_rhs => rw [← ht]
  rw [List.getLast?_append]
  cases hg : (l.dropWhile p).getLast? with
  | none => exact absurd (List.getLast?_eq_none_iff.mp hg) h
  | some x => rfl

theorem trimChars_head_not_ws (l : List Char) (c : Char)
    (h : (trimChars l).head? = some c) : jsWs c = false := by
  rw [trimChars, List.head?_reverse] at h
  by_cases hnil : (l.dropWhile jsWs).reverse.dropWhile jsWs = []
  · rw [hnil] at h
    exact absurd h (by simp)
  · rw [getLast?_dropWhile_of_ne_nil jsWs _ hnil, List.getLast?_reverse] at h
    exact head?_dropWhile_false jsWs l c h

theorem trimChars_getLast_not_ws (l : List Char) (c : Char)
    (h : (trimChars l).getLast? = some c) : jsWs c = false := by
  rw [trimChars, List.getLast?_reverse] at h
  exact head?_dropWhile_false jsWs _ c h

theorem cleanChunks_mem_props (sep : Char → Bool) (l : List Char) (e : String)
    (he : e ∈ cleanChunks sep l) :
    e ≠ "" ∧ (∀ c, e.data.head? = some c → jsWs c = false) ∧
      (∀ c, e.data.getLast? = some c → jsWs c = false) := by
  simp only [cleanChunks, List.mem_map, List.mem_filter] at he
  obtain ⟨piece, ⟨hpiece, hne⟩, hmk⟩ := he
  obtain ⟨chunk, -, htrim⟩ := hpiece
  have hdata : e.data = piece := by rw [← hmk]
  have hpne : piece ≠ [] := by simpa using hne
  refine ⟨?_, ?_, ?_⟩
  · intro h0
    rw [h0] at hdata
    exact hpne hdata.symm
  · intro c hc
    rw [hdata, ← htrim] at hc
    exact trimChars_head_not_ws chunk c hc
  · intro c hc
    rw [hdata, ← htrim] at hc
    exact trimChars_getLast_not_ws chunk c hc

theorem cleanChunks_sublist (sep : Char → Bool) (l : List Char) :
    ((cleanChunks sep l).map String.data).Sublist ((splitOnRuns sep l).map trimChars) := by
  have hmap : (cleanChunks sep l).map String.data =
      ((splitOnRuns sep l).map trimChars).filter (fun item => item != []) := by
    rw [cleanChunks, List.map_map]
    have : String.data ∘ String.mk = id := rfl
    rw [this, List.map_id]
  rw [hmap]
  exact List.filter_sublist _

theorem parseList_mem_props (v : Option String) (mode : ParseMode) (e : String)
    (he : e ∈ parseList v mode) :
    e ≠ "" ∧ (∀ c, e.data.head? = some c → jsWs c = false) ∧
      (∀ c, e.data.getLast? = some c → jsWs c = false) := by
  match v with
  | none => exact absurd he (by simp [parseList])
  | some text =>
    by_cases htext : text = ""
    · rw [parseList, if_pos htext] at he
      exact absurd he (by simp)
    · rw [parseList, if_neg htext] at he
      exact cleanChunks_mem_props _ _ e he

theorem parseList_sublist (v : Option String) (mode : ParseMode) :
    ((parseList v mode).map String.data).Sublist
      ((splitOnRuns (sepFor mode) (v.getD "").data).map trimChars) := by
  match v with
  | none => exact List.nil_sublist _
  | some text =>
    by_cases htext : text = ""
    · rw [parseList, if_pos htext]
      exact List.nil_sublist _
    · rw [parseList, if_neg htext]
      exact cleanChunks_sublist _ _

/-- C10: both list helpers return only non-empty, fully trimmed elements,
in the order of the corresponding input segments, and a null/empty input
yields `[]`. -/
theorem c10_list_helpers (v : Option String) (mode : ParseMode) (s : String) :
    (∀ e ∈ parseList v mode, e ≠ "" ∧
      (∀ c, e.data.head? = some c → jsWs c = false) ∧
      (∀ c, e.data.getLast? = some c → jsWs c = false)) ∧
    parseList none mode = [] ∧ parseList (some "") mode = [] ∧
    ((parseList v mode).map String.data).Sublist
      ((splitOnRuns (sepFor mode) (v.getD "").data).map trimChars) ∧
    (∀ e ∈ splitList s, e ≠ "" ∧
      (∀ c, e.data.head? = some c → jsWs c = false) ∧
      (∀ c, e.data.getLast? = some c → jsWs c = false)) ∧
    splitList "" = [] ∧
    ((splitList s).map String.data).Sublist ((splitOnRuns isNewlineSep s.data).map trimChars) :=
  ⟨parseList_mem_props v mode, rfl, rfl, parseList_sublist v mode,
    fun e he => cleanChunks_mem_props _ _ e he, rfl, cleanChunks_sublist _ _⟩

/-- Witness for C10: a concrete element of a concrete parse is non-empty
and trimmed at both ends. -/
theorem c10_list_helpers_witness :
    ("見出し" ∈ parseList (some " 見出し \r\n") ParseMode.newline) ∧
    ("見出し" ≠ "" ∧
      (∀ c, ("見出し" : String).data.head? = some c → jsWs c = false) ∧
      (∀ c, ("見出し" : String).data.getLast? = some c → jsWs c = false)) :=
  ⟨by decide,
    (c10_list_helpers (some " 見出し \r\n") ParseMode.newline "x").1 "見出し" (by decide)⟩

/-! ### Brief heading directive and outline stage -/

/-- Embeds the JS expression reading the `heading_mode` field with
fallback `auto`: a missing or empty field falls back to `auto`. -/
def headingModeValue (modeField : Option String) : String :=
  match modeField with
  | none => "auto"
  | some v => if v = "" then "auto" else v

structure HeadingDirective where
  mode : String
  headings : List String
deriving DecidableEq, Repr

/-- Embeds the `heading_directive` object built by the brief form
submit handler: `headings` is the newline-mode parse exactly when the
mode is `manual`, and `[]` otherwise. -/
def mkHeadingDirective (modeField overrides : Option String) : HeadingDirective :=
  let m := headingModeValue modeField
  { mode := m
    headings := if m = "manual" then parseList overrides ParseMode.newline else [] }

structure OutlineStageResult where
  outline : List String
  gatewayCalls : Nat
deriving DecidableEq, Repr

/-- Modelled from the spec: the pipeline service that runs the outline
stage is not among the provided sources (only the UI, docs and infra
are). Per §4.2 step 2, with a manual heading list the stage uses it
verbatim with no Model Gateway call; otherwise one gateway call produces
the outline (`modelOutline` stands for the result of that call). -/
def outlineStage (d : HeadingDirective) (modelOutline : List String) : OutlineStageResult :=
  if d.mode = "manual" then { outline := d.headings, gatewayCalls := 0 }
  else { outline := modelOutline, gatewayCalls := 1 }

/-- C3: with a manual heading directive the outline stage makes zero
gateway calls and returns the heading list of the Brief verbatim, that list
being exactly the non-empty trimmed lines of the overrides field in
input order; with any other mode the Brief carries an empty heading
list. -/
theorem c3_manual_outline_passthrough (modeField overrides : Option String)
    (modelOutline : List String) :
    ((mkHeadingDirective modeField overrides).mode = "manual" →
      outlineStage (mkHeadingDirective modeField overrides) modelOutline =
        { outline := (mkHeadingDirective modeField overrides).headings, gatewayCalls := 0 } ∧
      (mkHeadingDirective modeField overrides).headings =
        parseList overrides ParseMode.newline ∧
      (∀ e ∈ (mkHeadingDirective modeField overrides).headings, e ≠ "" ∧
        (∀ c, e.data.head? = some c → jsWs c = false) ∧
        (∀ c, e.data.getLast? = some c → jsWs c = false)) ∧
      (((mkHeadingDirective modeField overrides).headings.map String.data).Sublist
        ((splitOnRuns isNewlineSep (overrides.getD "").data).map trimChars))) ∧
    ((mkHeadingDirective modeField overrides).mode ≠ "manual" →
      (mkHeadingDirective modeField overrides).headings = []) := by
  constructor
  · intro hmode
    have hm : headingModeValue modeField = "manual" := hmode
    have hh : (mkHeadingDirective modeField overrides).headings =
        parseList overrides ParseMode.newline := by
      simp [mkHeadingDirective, hm]
    refine ⟨?_, hh, ?_, ?_⟩
    · simp [outlineStage, hmode]
    · rw [hh]
      intro e he
      exact parseList_mem_props overrides ParseMode.newline e he
    · rw [hh]
      exact parseList_sublist overrides ParseMode.newline
  · intro hmode
    have hm : headingModeValue modeField ≠ "manual" := hmode
    simp [mkHeadingDirective, hm]

/-- Witness for C3 at a concrete manual directive (and a concrete auto
one). -/
theorem c3_manual_outline_passthrough_witness :
    (outlineStage (mkHeadingDirective (some "manual") (some "H1\n  H2 \r\n\nH3")) ["X"] =
      { outline := ["H1", "H2", "H3"], gatewayCalls := 0 }) ∧
    (mkHeadingDirective (some "auto") (some "H1\nH2")).headings = [] := by
  constructor
  · have h := (c3_manual_outline_passthrough (some "manual") (some "H1\n  H2 \r\n\nH3") ["X"]).1
      (by decide)
    rw [h.1, show (mkHeadingDirective (some "manual") (some "H1\n  H2 \r\n\nH3")).headings =
      ["H1", "H2", "H3"] by decide]
  · exact (c3_manual_outline_passthrough (some "auto") (some "H1\nH2") []).2 (by decide)

/-! ### Section drafting fan-out (spec-modelled) -/

/-- Modelled from the spec: the pipeline service that fans out section
drafting is not among the provided sources. Per §4.2 step 3 / §5, one
task per outline heading writes its own slot of the section list of the
run;
`order` is the order in which the concurrent tasks complete, and `draft
i h` is the text task `i` produces for heading `h`. -/
def runSectionTasks (headings : List String) (draft : Nat → String → String)
    (order : List Nat) : List (Option String) :=
  order.foldl (fun slots i => slots.set i (some (draft i (headings.getD i ""))))
    (List.replicate headings.length none)

/-- The join: collect the filled slots in slot (outline) order. -/
def assembleSections (slots : List (Option String)) : List String :=
  slots.filterMap id

theorem filterMap_some_map {α β : Type} (g : α → β) (l : List α) :
    l.filterMap (fun a => some (g a)) = l.map g := by
  induction l with
  | nil => rfl
  | cons a t ih => simp [List.filterMap_cons, ih]

theorem foldl_set_getElem? {α : Type} (f : Nat → α) (order : List Nat)
    (init : List α) (i : Nat) :
    (order.foldl (fun slots j => slots.set j (f j)) init)[i]? =
      if i ∈ order ∧ i < init.length then some (f i) else init[i]? := by
  induction order generalizing init with
  | nil => simp
  | cons j rest ih =>
    rw [List.foldl_cons, ih, List.length_set]
    by_cases hri : i ∈ rest ∧ i < init.length
    · rw [if_pos hri, if_pos ⟨List.mem_cons_of_mem _ hri.1, hri.2⟩]
    · rw [if_neg hri]
      by_cases hij : i = j
      · subst hij
        by_cases hlen : i < init.length
        · rw [List.getElem?_set_self hlen, if_pos ⟨List.mem_cons_self _ _, hlen⟩]
        · have h1 : (init.set i (f i))[i]? = none := by
            apply List.getElem?_eq_none
            rw [List.length_set]
            omega
          have h2 : init[i]? = none := List.getElem?_eq_none (by omega)
          rw [h1, h2, if_neg (by tauto)]
      · rw [List.getElem?_set_ne (Ne.symm hij)]
        rw [if_neg ?_]
        rintro ⟨hmem, hlt⟩
        rcases List.mem_cons.mp hmem with h | h
        · exact hij h
        · exact hri ⟨h, hlt⟩

/-- C6: whenever every section task completed (in whatever order), the
slots hold exactly one draft per outline heading and the assembled drafts
appear in outline order — the result does not depend on `order`. -/
theorem c6_sections_order_invariant (headings : List String) (draft : Nat → String → String)
    (order : List Nat) (hcomplete : ∀ i, i < headings.length → i ∈ order) :
    runSectionTasks headings draft order =
      (List.range headings.length).map (fun i => some (draft i (headings.getD i ""))) ∧
    assembleSections (runSectionTasks headings draft order) =
      (List.range headings.length).map (fun i => draft i (headings.getD i "")) ∧
    (assembleSections (runSectionTasks headings draft order)).length = headings.length := by
  have hmain : runSectionTasks headings draft order =
      (List.range headings.length).map (fun i => some (draft i (headings.getD i ""))) := by
    apply List.ext_getElem?
    intro i
    rw [runSectionTasks, foldl_set_getElem?]
    rw [List.length_replicate]
    by_cases hi : i < headings.length
    · rw [if_pos ⟨hcomplete i hi, hi⟩]
      rw [List.getElem?_map, List.getElem?_range hi]
      rfl
    · rw [if_neg (by tauto)]
      rw [List.getElem?_eq_none (by rw [List.length_replicate]; omega)]
      rw [List.getElem?_eq_none (by rw [List.length_map, List.length_range]; omega)]
  have hassemble : assembleSections (runSectionTasks headings draft order) =
      (List.range headings.length).map (fun i => draft i (headings.getD i "")) := by
    rw [hmain, assembleSections, List.filterMap_map]
    exact filterMap_some_map _ _
  refine ⟨hmain, hassemble, ?_⟩
  rw [hassemble, List.length_map, List.length_range]

/-- Witness for C6: two headings completing in reverse order still
assemble in outline order. -/
theorem c6_sections_order_invariant_witness :
    assembleSections (runSectionTasks ["導入", "比較"] (fun _ h => h ++ "本文") [1, 0]) =
      ["導入本文", "比較本文"] := by
  have h := c6_sections_order_invariant ["導入", "比較"] (fun _ h => h ++ "本文") [1, 0]
    (by decide)
  rw [h.2.1]
  rfl

/-! ### Pipeline stage bookkeeping (spec-modelled) -/

/-- Modelled from the spec: the pipeline service is not among the
provided sources. One stage attempt either succeeds with content,
degrades with a typed marker (§7 `StageDegraded`), or fails the run
(§7 `PipelineFailed`). -/
inductive StageOutcome where
  | success (content : String)
  | degraded (marker : String)
  | fatal (marker : String)
deriving DecidableEq, Repr

/-- What a stage writes into its `PipelineRun` output slot. -/
inductive SlotValue where
  | content (v : String)
  | placeholder (marker : String)
  | failureMark (marker : String)
deriving DecidableEq, Repr

inductive RunStatus where
  | completed
  | failed
deriving DecidableEq, Repr

/-- The trace of one pipeline execution: every (stage index, slot value)
write it performed, the warnings it attached, and its terminal status. -/
structure RunResult where
  writes : List (Nat × SlotValue)
  warnings : List String
  status : RunStatus
deriving DecidableEq, Repr

/-- Modelled from the spec: execute the stages in order starting at
index `i`; a successful stage writes its slot once, a degraded stage
writes a placeholder once and attaches its marker as a warning, and a
fatal stage writes its failure marker and terminates the run in the
`failed` state (later stages never execute). -/
def execFrom (i : Nat) : List StageOutcome → RunResult
  | [] => { writes := [], warnings := [], status := .completed }
  | o :: rest =>
    match o with
    | .success v =>
      let r := execFrom (i + 1) rest
      { writes := (i, .content v) :: r.writes, warnings := r.warnings, status := r.status }
    | .degraded m =>
      let r := execFrom (i + 1) rest
      { writes := (i, .placeholder m) :: r.writes, warnings := m :: r.warnings,
        status := r.status }
    | .fatal m =>
      { writes := [(i, .failureMark m)], warnings := [m], status := .failed }

def runPipelineStages (outcomes : List StageOutcome) : RunResult :=
  execFrom 0 outcomes

def isFailureOutcome : StageOutcome → Bool
  | .success _ => false
  | .degraded _ => true
  | .fatal _ => true

theorem execFrom_writes_fst (i : Nat) (os : List StageOutcome) :
    (execFrom i os).writes.map Prod.fst = List.range' i (execFrom i os).writes.length := by
  induction os generalizing i with
  | nil => rfl
  | cons o rest ih =>
    cases o with
    | success v =>
      simp only [execFrom, List.map_cons, List.length_cons]
      rw [ih (i + 1), List.range'_succ]
    | degraded m =>
      simp only [execFrom, List.map_cons, List.length_cons]
      rw [ih (i + 1), List.range'_succ]
    | fatal m => rfl

theorem execFrom_failed_stage (os : List StageOutcome) (i k : Nat) (o : StageOutcome)
    (hk : os[k]? = some o) (hf : isFailureOutcome o = true) :
    (∃ m, o = .degraded m ∧ (i + k, SlotValue.placeholder m) ∈ (execFrom i os).writes ∧
      m ∈ (execFrom i os).warnings) ∨
    (execFrom i os).status = .failed := by
  induction os generalizing i k with
  | nil => exact absurd hk (by simp)
  | cons o0 rest ih =>
    cases k with
    | zero =>
      have ho : o0 = o := by simpa using hk
      subst ho
      cases o0 with
      | success v => exact absurd hf (by simp [isFailureOutcome])
      | degraded m =>
        refine Or.inl ⟨m, rfl, ?_, ?_⟩
        · show (i + 0, SlotValue.placeholder m) ∈
            (i, SlotValue.placeholder m) :: (execFrom (i + 1) rest).writes
          rw [Nat.add_zero]
          exact List.mem_cons_self _ _
        · exact List.mem_cons_self _ _
      | fatal m => exact Or.inr rfl
    | succ k' =>
      have hk' : rest[k']? = some o := by simpa using hk
      cases o0 with
      | success v =>
        rcases ih (i + 1) k' hk' with ⟨m, hm, hw, hwarn⟩ | hst
        · refine Or.inl ⟨m, hm, ?_, ?_⟩
          · show (i + (k' + 1), SlotValue.placeholder m) ∈
              (i, SlotValue.content v) :: (execFrom (i + 1) rest).writes
            have : i + (k' + 1) = i + 1 + k' := by omega
            rw [this]
            exact List.mem_cons_of_mem _ hw
          · exact hwarn
        · exact Or.inr hst
      | degraded m0 =>
        rcases ih (i + 1) k' hk' with ⟨m, hm, hw, hwarn⟩ | hst
        · refine Or.inl ⟨m, hm, ?_, ?_⟩
          · show (i + (k' + 1), SlotValue.placeholder m) ∈
              (i, SlotValue.placeholder m0) :: (execFrom (i + 1) rest).writes
            have : i + (k' + 1) = i + 1 + k' := by omega
            rw [this]
            exact List.mem_cons_of_mem _ hw
          · exact List.mem_cons_of_mem _ hwarn
        · exact Or.inr hst
      | fatal m0 => exact Or.inr rfl

theorem execFrom_content_write (os : List StageOutcome) (i k : Nat) (v : String)
    (hmem : (k, SlotValue.content v) ∈ (execFrom i os).writes) :
    ∃ j, k = i + j ∧ os[j]? = some (.success v) := by
  induction os generalizing i k with
  | nil => exact absurd hmem (by simp [execFrom])
  | cons o0 rest ih =>
    cases o0 with
    | success w =>
      rcases List.mem_cons.mp hmem with hhead | htail
      · have hki : k = i := congrArg Prod.fst hhead
        have hvw : v = w := by
          have h2 := congrArg Prod.snd hhead
          simpa using h2
        subst hvw
        exact ⟨0, by omega, by simp⟩
      · obtain ⟨j, hj, hrest⟩ := ih (i + 1) k htail
        exact ⟨j + 1, by omega, by simpa using hrest⟩
    | degraded m0 =>
      rcases List.mem_cons.mp hmem with hhead | htail
      · exact absurd (congrArg Prod.snd hhead) (by simp)
      · obtain ⟨j, hj, hrest⟩ := ih (i + 1) k htail
        exact ⟨j + 1, by omega, by simpa using hrest⟩
    | fatal m0 =>
      rcases List.mem_cons.mp hmem with hhead | htail
      · exact absurd (congrArg Prod.snd hhead) (by simp)
      · exact absurd htail (by simp)

/-- C7: in every run each stage slot is written at most once, every
failed stage either leaves a typed marker (placeholder plus warning) or
the run terminates in the failed state, and a content slot can only come
from a stage that actually succeeded with that content — no silently
empty success. -/
theorem c7_stage_write_once_and_failures (outcomes : List StageOutcome) :
    ((runPipelineStages outcomes).writes.map Prod.fst).Nodup ∧
    (∀ k o, outcomes[k]? = some o → isFailureOutcome o = true →
      (∃ m, o = .degraded m ∧
        (k, SlotValue.placeholder m) ∈ (runPipelineStages outcomes).writes ∧
        m ∈ (runPipelineStages outcomes).warnings) ∨
      (runPipelineStages outcomes).status = .failed) ∧
    (∀ k v, (k, SlotValue.content v) ∈ (runPipelineStages outcomes).writes →
      outcomes[k]? = some (.success v)) := by
  refine ⟨?_, ?_, ?_⟩
  · rw [runPipelineStages, execFrom_writes_fst]
    exact List.nodup_range' _ _
  · intro k o hk hf
    have h := execFrom_failed_stage outcomes 0 k o hk hf
    simpa [runPipelineStages] using h
  · intro k v hmem
    obtain ⟨j, hj, hrest⟩ := execFrom_content_write outcomes 0 k v hmem
    rw [hj, Nat.zero_add]
    exact hrest

/-- Witness for C7 at a concrete run with one degraded stage. -/
theorem c7_stage_write_once_and_failures_witness :
    (∃ m, StageOutcome.degraded "リンク取得失敗" = .degraded m ∧
      (1, SlotValue.placeholder m) ∈
        (runPipelineStages [.success "本文", .degraded "リンク取得失敗", .success "結論"]).writes ∧
      m ∈ (runPipelineStages [.success "本文", .degraded "リンク取得失敗", .success "結論"]).warnings) ∨
    (runPipelineStages [.success "本文", .degraded "リンク取得失敗", .success "結論"]).status = .failed :=
  (c7_stage_write_once_and_failures [.success "本文", .degraded "リンク取得失敗", .success "結論"]).2.1
    1 (.degraded "リンク取得失敗") rfl rfl

end SeoDrafter
